import Mathlib

/-!
Verification of the UnlockIt browser extension (content.js, background.js,
popup.js) against its natural-language specification.  JavaScript values are
shallowly embedded as the inductive type `JVal`; the extension's pure logic
(settings validation, storage round-trips, page-type dispatch, debouncing,
mutation filtering and batching, the notified-sites list, and the popup's
toggle state machine) is translated into executable Lean definitions and the
spec's claims are proved or refuted about them.
-/

set_option maxHeartbeats 1000000

/-- Shallow embedding of the JavaScript values the extension manipulates.
Objects are association lists of own properties in insertion order; property
lookup takes the first binding. -/
inductive JVal where
  | undefinedV
  | null
  | bool (b : Bool)
  | num (n : Int)
  | str (s : String)
  | obj (fields : List (String × JVal))

namespace JVal

/-- JavaScript `typeof` on the embedded values. -/
def typeofJs : JVal → String
  | .undefinedV => "undefined"
  | .null => "object"
  | .bool _ => "boolean"
  | .num _ => "number"
  | .str _ => "string"
  | .obj _ => "object"

/-- JavaScript truthiness of an embedded value. -/
def truthy : JVal → Bool
  | .undefinedV => false
  | .null => false
  | .bool b => b
  | .num n => n != 0
  | .str s => s != ""
  | .obj _ => true

/-- Property access `v[k]`: on an object, the first binding for `k` (missing
properties read as `undefined`); on every other value it reads as
`undefined` for the purposes of this model. -/
def jGet (v : JVal) (k : String) : JVal :=
  match v with
  | .obj fs => (fs.lookup k).getD .undefinedV
  | _ => .undefinedV

/-- Whether an object value has an own property named `k` (even one whose
value is `undefined`). -/
def hasProp (v : JVal) (k : String) : Bool :=
  match v with
  | .obj fs => (fs.lookup k).isSome
  | _ => false

/-- Extract the boolean payload; used only under a `typeof === boolean`
guard, `d` is the value kept when the guard failed. -/
def asBool (v : JVal) (d : Bool) : Bool :=
  match v with
  | .bool b => b
  | _ => d

end JVal

/-- `CONFIG.VERSION` in content.js, background.js and popup.js. -/
def CONFIG_VERSION : String := "8.1.0"

/-- `CONFIG.STORAGE_KEY`. -/
def STORAGE_KEY : String := "unlockSettings"

/-- The shape of a validated settings record: the four boolean feature flags
plus the version string, exactly the fields of `DEFAULT_SETTINGS`. -/
@[ext]
structure Settings where
  mainEnabled : Bool
  copyEnabled : Bool
  pasteEnabled : Bool
  inputEnabled : Bool
  version : String
  deriving DecidableEq, Repr

/-- `DEFAULT_SETTINGS` from the source: main off, the three feature flags on,
version = `CONFIG.VERSION`. -/
def DEFAULT_SETTINGS : Settings :=
  { mainEnabled := false
    copyEnabled := true
    pasteEnabled := true
    inputEnabled := true
    version := CONFIG_VERSION }

/-- The own properties of a settings record viewed as a JavaScript object. -/
def Settings.fields (s : Settings) : List (String × JVal) :=
  [("mainEnabled", .bool s.mainEnabled),
   ("copyEnabled", .bool s.copyEnabled),
   ("pasteEnabled", .bool s.pasteEnabled),
   ("inputEnabled", .bool s.inputEnabled),
   ("version", .str s.version)]

/-- Serialisation of a validated settings record back to a JavaScript object,
as `chrome.storage.local.set` receives it. -/
def Settings.toJVal (s : Settings) : JVal :=
  .obj s.fields

namespace Utils

/-- `Utils.validateSettings` (content.js lines 129-150; the background.js and
popup.js copies iterate the same four keys with a `forEach` and are
behaviourally identical).  A non-truthy or non-object argument yields the
defaults; otherwise each of the four flags is copied from the argument when
it is of boolean type and defaulted otherwise. -/
def validateSettings (settings : JVal) : Settings :=
  if ¬ settings.truthy ∨ settings.typeofJs ≠ "object" then
    DEFAULT_SETTINGS
  else
    let validated := DEFAULT_SETTINGS
    let validated :=
      if (settings.jGet "mainEnabled").typeofJs = "boolean" then
        { validated with mainEnabled := (settings.jGet "mainEnabled").asBool validated.mainEnabled }
      else validated
    let validated :=
      if (settings.jGet "copyEnabled").typeofJs = "boolean" then
        { validated with copyEnabled := (settings.jGet "copyEnabled").asBool validated.copyEnabled }
      else validated
    let validated :=
      if (settings.jGet "pasteEnabled").typeofJs = "boolean" then
        { validated with pasteEnabled := (settings.jGet "pasteEnabled").asBool validated.pasteEnabled }
      else validated
    let validated :=
      if (settings.jGet "inputEnabled").typeofJs = "boolean" then
        { validated with inputEnabled := (settings.jGet "inputEnabled").asBool validated.inputEnabled }
      else validated
    validated

end Utils

/-- The extension's key-value browser storage, one `JVal` per key; keys never
written read as `undefined`, as `chrome.storage.local.get` reports them. -/
def Store : Type := String → JVal

/-- `chrome.storage.local.set` for a single key. -/
def Store.set (st : Store) (k : String) (v : JVal) : Store :=
  fun k' => if k' = k then v else st k'

namespace Storage

/-- `Storage.getSettings` (content.js lines 303-311, identical in
background.js and popup.js): read `CONFIG.STORAGE_KEY` and validate. -/
def getSettings (st : Store) : Settings :=
  Utils.validateSettings (st STORAGE_KEY)

/-- `Storage.saveSettings` (background.js lines 82-93): validate the argument
and store the validated record under `CONFIG.STORAGE_KEY`; returns the new
store (the icon-badge update does not touch storage). -/
def saveSettings (st : Store) (settings : JVal) : Store :=
  st.set STORAGE_KEY (Utils.validateSettings settings).toJVal

end Storage

/-- Description, in the spec's words, of the flag extraction performed by a
read: the stored field when it is a boolean, the default otherwise.  Meant
only to be compared with `Utils.validateSettings`. -/
def specFlag (stored : JVal) (key : String) (dflt : Bool) : Bool :=
  match stored.jGet key with
  | .bool b => b
  | _ => dflt

/-- Description, in the spec's words, of what a settings read should return:
exactly the four flags (each taken from the stored value when boolean, its
default otherwise) plus the script's version constant. -/
def specGetSettings (stored : JVal) : Settings :=
  { mainEnabled := specFlag stored "mainEnabled" false
    copyEnabled := specFlag stored "copyEnabled" true
    pasteEnabled := specFlag stored "pasteEnabled" true
    inputEnabled := specFlag stored "inputEnabled" true
    version := CONFIG_VERSION }

lemma validateSettings_eq_specGet (v : JVal) :
    Utils.validateSettings v = specGetSettings v := by
  cases v with
  | obj fs =>
    have h : ¬(¬(JVal.obj fs).truthy ∨ (JVal.obj fs).typeofJs ≠ "object") := by
      simp [JVal.truthy, JVal.typeofJs]
    apply Settings.ext <;>
      simp only [Utils.validateSettings, if_neg h, specGetSettings, specFlag] <;>
      rcases hm : (JVal.obj fs).jGet "mainEnabled" with _ | _ | bm | nm | sm | fm <;>
      rcases hc : (JVal.obj fs).jGet "copyEnabled" with _ | _ | bc | nc | sc | fc <;>
      rcases hp : (JVal.obj fs).jGet "pasteEnabled" with _ | _ | bp | np | sp | fp <;>
      rcases hi : (JVal.obj fs).jGet "inputEnabled" with _ | _ | bi | ni | si | fi <;>
      simp [JVal.typeofJs, JVal.asBool, DEFAULT_SETTINGS]
  | undefinedV => rfl
  | null => rfl
  | bool b => cases b <;> rfl
  | num n =>
    have h : (¬(JVal.num n).truthy ∨ (JVal.num n).typeofJs ≠ "object") := by
      simp [JVal.typeofJs]
    simp only [Utils.validateSettings, if_pos h]
    rfl
  | str s =>
    have h : (¬(JVal.str s).truthy ∨ (JVal.str s).typeofJs ≠ "object") := by
      simp [JVal.typeofJs]
    simp only [Utils.validateSettings, if_pos h]
    rfl

lemma validateSettings_version (v : JVal) :
    (Utils.validateSettings v).version = CONFIG_VERSION := by
  rw [validateSettings_eq_specGet]; rfl

lemma validateSettings_toJVal (t : Settings) :
    Utils.validateSettings t.toJVal = { t with version := CONFIG_VERSION } := by
  rw [validateSettings_eq_specGet]
  apply Settings.ext <;> rfl

/-- C1: for every storage content — the value under the `unlockSettings` key
may be `undefined`, `null`, a non-object, or an object with missing or
wrongly-typed fields — `Storage.getSettings` returns a record of exactly the
four boolean flags plus the version string, where each flag equals the
stored field when that field is a boolean and its default otherwise
(`mainEnabled` defaults to `false`, the other three to `true`), and the
version is the script's version constant. -/
theorem C1_getSettings_validates (st : Store) :
    Storage.getSettings st = specGetSettings (st STORAGE_KEY) :=
  validateSettings_eq_specGet (st STORAGE_KEY)

/-- C2: saving any value `s` and reading the settings back yields exactly
`validateSettings s`, and `validateSettings` is idempotent: re-validating
the serialised form of a validated record changes nothing. -/
theorem C2_save_get_roundtrip_and_idempotent (st : Store) (s : JVal) :
    Storage.getSettings (Storage.saveSettings st s) = Utils.validateSettings s ∧
    Utils.validateSettings (Utils.validateSettings s).toJVal = Utils.validateSettings s := by
  have hidem : Utils.validateSettings (Utils.validateSettings s).toJVal =
      Utils.validateSettings s := by
    rw [validateSettings_toJVal]
    apply Settings.ext <;> simp [validateSettings_version]
  refine ⟨?_, hidem⟩
  show Utils.validateSettings (Store.set st STORAGE_KEY (Utils.validateSettings s).toJVal
      STORAGE_KEY) = Utils.validateSettings s
  rw [Store.set, if_pos rfl, hidem]

/-- One logged error report: the `context` string passed to the wrapper and
the thrown error, as `Logger.error` receives them. -/
structure LogEntry where
  context : String
  message : String
  deriving DecidableEq, Repr

namespace ErrorHandler

/-- `ErrorHandler.wrap` (background.js 37-48, identical in content.js 60-70):
the returned function runs `fn` inside try/catch; a throwing `fn` is
embedded as one returning `Except.error`.  The wrapper threads the error
log explicitly: a normal return passes the result through and leaves the
log alone, a caught exception appends one log entry and yields `undefined`
(`none`). -/
def wrap {α β : Type} (fn : α → Except String β) (context : String) :
    α → List LogEntry → Option β × List LogEntry :=
  fun args log =>
    match fn args with
    | .ok r => (some r, log)
    | .error e => (none, log ++ [⟨context, e⟩])

end ErrorHandler

/-- C3: the function produced by `ErrorHandler.wrap` returns `fn`'s result
when `fn` returns normally, and when `fn` throws it swallows the exception,
appends exactly one entry to the log, and returns `undefined` (`none`) —
its result type has no exception channel, so nothing is re-raised, and the
error path changes no state other than the log. -/
theorem C3_wrap_catches_and_logs {α β : Type} (fn : α → Except String β)
    (context : String) (a : α) (log : List LogEntry) :
    (∀ r, fn a = .ok r → ErrorHandler.wrap fn context a log = (some r, log)) ∧
    (∀ e, fn a = .error e →
      ErrorHandler.wrap fn context a log = (none, log ++ [⟨context, e⟩])) := by
  constructor
  · intro r h
    simp [ErrorHandler.wrap, h]
  · intro e h
    simp [ErrorHandler.wrap, h]

/-- Witness for C3 at a concrete function: one normal return and one caught
exception. -/
theorem C3_wrap_catches_and_logs_witness :
    ErrorHandler.wrap (fun n : Nat => if n = 0 then .error "boom" else .ok (n + 1))
      "ctx" 3 [] = (some 4, []) ∧
    ErrorHandler.wrap (fun n : Nat => if n = 0 then .error "boom" else .ok (n + 1))
      "ctx" 0 [] = (none, [⟨"ctx", "boom"⟩]) :=
  ⟨(C3_wrap_catches_and_logs (fun n : Nat => if n = 0 then .error "boom" else .ok (n + 1))
      "ctx" 3 []).1 4 rfl,
   (C3_wrap_catches_and_logs (fun n : Nat => if n = 0 then .error "boom" else .ok (n + 1))
      "ctx" 0 []).2 "boom" rfl⟩

namespace State

/-- `State.toggle` (popup.js 205-233): no-op while `isUpdating`; otherwise
copy the settings and flip the field selected by `key`, the three feature
keys only when `mainEnabled` is currently set; unknown keys fall through
the `switch` unchanged. -/
def toggle (isUpdating : Bool) (settings : Settings) (key : String) : Settings :=
  if isUpdating then settings
  else
    let newSettings := settings
    let newSettings :=
      if key = "main" then
        { newSettings with mainEnabled := !newSettings.mainEnabled }
      else if key = "copy" then
        if newSettings.mainEnabled then
          { newSettings with copyEnabled := !newSettings.copyEnabled }
        else newSettings
      else if key = "paste" then
        if newSettings.mainEnabled then
          { newSettings with pasteEnabled := !newSettings.pasteEnabled }
        else newSettings
      else if key = "input" then
        if newSettings.mainEnabled then
          { newSettings with inputEnabled := !newSettings.inputEnabled }
        else newSettings
      else newSettings
    newSettings

end State

/-- C10: `State.toggle` flips exactly the named field — `main`
unconditionally (when not updating), `copy`/`paste`/`input` only while
`mainEnabled` holds — and returns the settings unchanged when `isUpdating`
is set, when `mainEnabled` is off and the key is not `main`, or for an
unrecognised key; every other field, the version included, keeps its value
in all cases. -/
theorem C10_toggle_flips_only_named_field (u : Bool) (s : Settings) (k : String) :
    (u = false → State.toggle u s "main" = { s with mainEnabled := !s.mainEnabled }) ∧
    (u = false → s.mainEnabled = true →
      State.toggle u s "copy" = { s with copyEnabled := !s.copyEnabled } ∧
      State.toggle u s "paste" = { s with pasteEnabled := !s.pasteEnabled } ∧
      State.toggle u s "input" = { s with inputEnabled := !s.inputEnabled }) ∧
    (s.mainEnabled = false → k ≠ "main" → State.toggle u s k = s) ∧
    (u = true → State.toggle u s k = s) ∧
    (k ≠ "main" → k ≠ "copy" → k ≠ "paste" → k ≠ "input" → State.toggle u s k = s) ∧
    (State.toggle u s k).version = s.version := by
  refine ⟨?_, ?_, ?_, ?_, ?_, ?_⟩
  · intro hu; subst hu; simp [State.toggle]
  · intro hu hm; subst hu; simp [State.toggle, hm]
  · intro hm hk
    cases u <;> simp [State.toggle, hm, hk]
  · intro hu; subst hu; simp [State.toggle]
  · intro h1 h2 h3 h4
    cases u <;> simp [State.toggle, h1, h2, h3, h4]
  · cases u <;> simp only [State.toggle] <;> split_ifs <;> rfl

/-- Witness for C10: flipping `copy` with main on, and the no-op cases with
main off / an unknown key. -/
theorem C10_toggle_flips_only_named_field_witness :
    State.toggle false
        { mainEnabled := true, copyEnabled := true, pasteEnabled := true,
          inputEnabled := true, version := "8.1.0" } "copy" =
      { mainEnabled := true, copyEnabled := false, pasteEnabled := true,
        inputEnabled := true, version := "8.1.0" } ∧
    State.toggle false DEFAULT_SETTINGS "paste" = DEFAULT_SETTINGS ∧
    State.toggle false DEFAULT_SETTINGS "bogus" = DEFAULT_SETTINGS := by
  refine ⟨?_, ?_, ?_⟩
  · exact ((C10_toggle_flips_only_named_field false
      { mainEnabled := true, copyEnabled := true, pasteEnabled := true,
        inputEnabled := true, version := "8.1.0" } "copy").2.1 rfl rfl).1
  · exact (C10_toggle_flips_only_named_field false DEFAULT_SETTINGS "paste").2.2.1
      rfl (by decide)
  · exact (C10_toggle_flips_only_named_field false DEFAULT_SETTINGS "bogus").2.2.2.2.1
      (by decide) (by decide) (by decide) (by decide)

namespace MessageHandler

/-- `MessageHandler.saveNotifiedSites` (background.js 269-277): persist
`sites.slice(-20)`, i.e. only the most recent 20 entries. -/
def saveNotifiedSites (sites : List String) : List String :=
  sites.drop (sites.length - 20)

/-- `MessageHandler.handleRestrictionDetected` (background.js 224-256),
applied to the state it reads (the `mainEnabled` flag and the stored
`notifiedSites` list) and the reported hostname; returns the stored list
after the call and the `notified` flag of the response.  With the main
switch on, or for a hostname already notified, it responds early without
touching the list; otherwise it pushes the hostname and saves. -/
def handleRestrictionDetected (mainEnabled : Bool) (notifiedSites : List String)
    (hostname : String) : List String × Bool :=
  if mainEnabled then (notifiedSites, false)
  else if notifiedSites.contains hostname then (notifiedSites, false)
  else (saveNotifiedSites (notifiedSites ++ [hostname]), true)

end MessageHandler

/-- C9: the persisted notified-sites list never exceeds 20 entries —
`saveNotifiedSites` keeps exactly the last `min 20 n` elements of its
input (a suffix of length at most 20) and `handleRestrictionDetected`
appends at most the one reported hostname before saving, so it preserves
the bound; with the main switch on or for an already-listed hostname it
responds `notified = false` and leaves the list unchanged. -/
theorem C9_notified_sites_bounded (mainEnabled : Bool) (stored : List String)
    (hostname : String) (sites : List String) :
    ((MessageHandler.saveNotifiedSites sites).length = min sites.length 20 ∧
      MessageHandler.saveNotifiedSites sites <:+ sites) ∧
    (stored.length ≤ 20 →
      ((MessageHandler.handleRestrictionDetected mainEnabled stored hostname).1).length ≤ 20) ∧
    (mainEnabled = true →
      MessageHandler.handleRestrictionDetected mainEnabled stored hostname = (stored, false)) ∧
    (hostname ∈ stored →
      MessageHandler.handleRestrictionDetected mainEnabled stored hostname = (stored, false)) ∧
    ((MessageHandler.handleRestrictionDetected mainEnabled stored hostname).2 = true →
      (MessageHandler.handleRestrictionDetected mainEnabled stored hostname).1 =
        MessageHandler.saveNotifiedSites (stored ++ [hostname])) := by
  refine ⟨⟨?_, ?_⟩, ?_, ?_, ?_, ?_⟩
  · simp [MessageHandler.saveNotifiedSites]
    omega
  · exact List.drop_suffix _ _
  · intro hlen
    unfold MessageHandler.handleRestrictionDetected
    split_ifs with h1 h2
    · exact hlen
    · exact hlen
    · simp [MessageHandler.saveNotifiedSites]
      omega
  · intro hm; subst hm
    simp [MessageHandler.handleRestrictionDetected]
  · intro hmem
    unfold MessageHandler.handleRestrictionDetected
    split_ifs with h1 h2
    · rfl
    · rfl
    · exact absurd hmem (by simpa using h2)
  · intro hnot
    unfold MessageHandler.handleRestrictionDetected at hnot ⊢
    split_ifs at hnot ⊢
    rfl

/-- Witness for C9: a concrete already-notified hostname is not re-notified,
and a fresh hostname keeps the list within the bound. -/
theorem C9_notified_sites_bounded_witness :
    MessageHandler.handleRestrictionDetected false ["a.com", "b.com"] "a.com" =
      (["a.com", "b.com"], false) ∧
    ((MessageHandler.handleRestrictionDetected false ["a.com", "b.com"] "c.com").1).length ≤ 20 :=
  ⟨(C9_notified_sites_bounded false ["a.com", "b.com"] "a.com" []).2.2.2.1
      (by decide),
   (C9_notified_sites_bounded false ["a.com", "b.com"] "c.com" []).2.1 (by decide)⟩

/-- JavaScript `toLowerCase` on the ASCII strings this code compares:
lower-case every character. -/
def jsToLower (s : String) : String :=
  String.mk (s.data.map Char.toLower)

/-- Test of one literal alternative of a `PageDetector` regex against a
hostname: every pattern in the table is an alternation of literal hostnames
(dots escaped) under the `i` flag, so the regex matches exactly when some
alternative occurs case-insensitively as a substring. -/
def regexLitTest (lit hostname : String) : Bool :=
  (jsToLower hostname).toList.tails.any
    (fun t => (jsToLower lit).toList.isPrefixOf t)

namespace PageDetector

/-- `PageDetector.types` (content.js 412-445): the fixed table of page types,
in source order, each with the literal alternatives of its pattern. -/
def types : List (String × List String) :=
  [("feishu", ["feishu.cn", "larkoffice.com"]),
   ("chaoxing", ["chaoxing.com"]),
   ("pintia", ["pintia.cn"]),
   ("csdn", ["csdn.net"]),
   ("juejin", ["juejin.cn"]),
   ("zhihu", ["zhihu.com"]),
   ("baidu", ["baidu.com"]),
   ("baiduwenku", ["wenku.baidu.com"]),
   ("docin", ["docin.com", "doc88.com"]),
   ("educoder", ["educoder.net"]),
   ("weixin", ["mp.weixin.qq.com"]),
   ("cnki", ["cnki.net", "cnki.com.cn", "kns.cnki.net"])]

/-- `pattern.test(hostname)` for one table entry. -/
def testPattern (alts : List String) (hostname : String) : Bool :=
  alts.any (fun lit => regexLitTest lit hostname)

/-- `PageDetector.is` (content.js 443-445):
`this.types[type]?.test(hostname) ?? false`. -/
def isType (t : String) (hostname : String) : Bool :=
  match types.lookup t with
  | some alts => testPattern alts hostname
  | none => false

end PageDetector

/-- The outcome of the per-page dispatch in `App.enableFeatures`: either the
handler of one named site, or the generic unlock path
(`removeSpecificEventListeners` + `interceptXHR` + `interceptFetch`). -/
inductive UnlockAction where
  | site (name : String)
  | generic
  deriving DecidableEq, Repr

namespace App

/-- The site-dispatch prefix of `App.enableFeatures` (content.js 2226-2280):
the `if`/`else if` chain over `PageDetector.is`, in source order; exactly
one branch runs. -/
def enableFeaturesBranch (hostname : String) : UnlockAction :=
  if PageDetector.isType "feishu" hostname then .site "feishu"
  else if PageDetector.isType "pintia" hostname then .site "pintia"
  else if PageDetector.isType "chaoxing" hostname then .site "chaoxing"
  else if PageDetector.isType "csdn" hostname then .site "csdn"
  else if PageDetector.isType "docin" hostname then .site "docin"
  else if PageDetector.isType "educoder" hostname then .site "educoder"
  else if PageDetector.isType "baiduwenku" hostname then .site "baiduwenku"
  else if PageDetector.isType "weixin" hostname then .site "weixin"
  else if PageDetector.isType "cnki" hostname then .site "cnki"
  else if PageDetector.isType "zhihu" hostname then .site "zhihu"
  else .generic

end App

/-- The dispatch order the claim names: feishu, pintia, chaoxing, csdn,
docin, educoder, baiduwenku, weixin, cnki, zhihu. -/
def claimedDispatchOrder : List String :=
  ["feishu", "pintia", "chaoxing", "csdn", "docin",
   "educoder", "baiduwenku", "weixin", "cnki", "zhihu"]

/-- Description, in the spec's words, of the dispatch: the site handler of
the FIRST type in the claimed order whose pattern matches the hostname,
and the generic path when none matches.  Meant only to be compared with
`App.enableFeaturesBranch`. -/
def specDispatch (hostname : String) : UnlockAction :=
  match claimedDispatchOrder.find? (fun t => PageDetector.isType t hostname) with
  | some t => .site t
  | none => .generic

/-- C4: `App.enableFeatures` runs exactly one site-specific branch — the
handler of the first type in the order feishu, pintia, chaoxing, csdn,
docin, educoder, baiduwenku, weixin, cnki, zhihu whose pattern from the
fixed 12-entry `PageDetector.types` table matches the hostname — and the
generic unlock path when none of them matches; the first-match shape rules
out ever running two site handlers. -/
theorem C4_enableFeatures_first_match (hostname : String) :
    App.enableFeaturesBranch hostname = specDispatch hostname ∧
    PageDetector.types.length = 12 := by
  refine ⟨?_, rfl⟩
  unfold App.enableFeaturesBranch specDispatch claimedDispatchOrder
  repeat' split
  all_goals simp_all [List.find?]

lemma lookup_append {β : Type} (l1 l2 : List (String × β)) (k : String) :
    (l1 ++ l2).lookup k = ((l1.lookup k).or (l2.lookup k)) := by
  induction l1 with
  | nil => simp [List.lookup]
  | cons p l ih =>
    rcases p with ⟨a, b⟩
    by_cases h : k = a
    · have hb : (k == a) = true := by simp [h]
      simp [List.lookup, hb]
    · have hb : (k == a) = false := by simp [h]
      simp [List.lookup, hb, ih]

/-- The per-site override map stored under `SITE_SETTINGS_KEY`: hostname to
the override record stored for it, as an association list of that record's
own properties (`saveSiteSettings` only ever stores objects there, so the
values are objects). -/
def SiteMap : Type := List (String × List (String × JVal))

namespace SiteSettingsManager

/-- `SiteSettingsManager.getSiteSettings` (popup.js 474-483):
`allSiteSettings[hostname] || null`. -/
def getSiteSettings (m : SiteMap) (hostname : String) :
    Option (List (String × JVal)) :=
  List.lookup hostname m

/-- `SiteSettingsManager.getEffectiveSettings` (popup.js 533-549).  The JS
builds `{...globalSettings, ...siteSettings, hasSiteSpecificSettings}`
when an override exists and `{...globalSettings, hasSiteSpecificSettings}`
otherwise; spread with later-wins is encoded as concatenation in reverse
priority order under the first-binding-wins lookup of `JVal.obj`. -/
def getEffectiveSettings (globalSettings : Settings) (m : SiteMap)
    (hostname : String) : JVal :=
  match getSiteSettings m hostname with
  | some siteSettings =>
      .obj (("hasSiteSpecificSettings", .bool true) ::
        (siteSettings ++ globalSettings.fields))
  | none =>
      .obj (("hasSiteSpecificSettings", .bool false) :: globalSettings.fields)

end SiteSettingsManager

/-- C5: `getEffectiveSettings` returns the global settings extended with
`hasSiteSpecificSettings = false` when no override is stored for the
hostname, and with an override present it returns the global settings with
every property present in the stored override replacing the corresponding
global value, extended with `hasSiteSpecificSettings = true` — stated
property-wise: the flag reads back as the override's presence, and every
other property reads from the override when the override carries it and
from the global settings otherwise. -/
theorem C5_effective_settings_merge (globalSettings : Settings) (m : SiteMap)
    (hostname : String) (k : String) (hk : k ≠ "hasSiteSpecificSettings") :
    ((SiteSettingsManager.getEffectiveSettings globalSettings m hostname).jGet
        "hasSiteSpecificSettings" =
      .bool (SiteSettingsManager.getSiteSettings m hostname).isSome) ∧
    ((SiteSettingsManager.getEffectiveSettings globalSettings m hostname).jGet k =
      match SiteSettingsManager.getSiteSettings m hostname with
      | some o =>
          if (JVal.obj o).hasProp k then (JVal.obj o).jGet k
          else globalSettings.toJVal.jGet k
      | none => globalSettings.toJVal.jGet k) := by
  constructor
  · cases h : SiteSettingsManager.getSiteSettings m hostname <;>
      simp [SiteSettingsManager.getEffectiveSettings, h, JVal.jGet, List.lookup]
  · have hb : (k == "hasSiteSpecificSettings") = false := by simp [hk]
    cases h : SiteSettingsManager.getSiteSettings m hostname with
    | none =>
      simp only [SiteSettingsManager.getEffectiveSettings, h, JVal.jGet, List.lookup, hb,
        Settings.toJVal]
    | some o =>
      simp only [SiteSettingsManager.getEffectiveSettings, h, JVal.jGet, List.lookup, hb,
        Settings.toJVal, JVal.hasProp, lookup_append]
      cases ho : o.lookup k <;> simp [ho, Option.or]

/-- Witness for C5: a stored override for `x.com` wins over the global value
and sets the flag; an absent override leaves the global value and clears
the flag. -/
theorem C5_effective_settings_merge_witness :
    ((SiteSettingsManager.getEffectiveSettings DEFAULT_SETTINGS
        [("x.com", [("mainEnabled", .bool true)])] "x.com").jGet "mainEnabled" =
      .bool true) ∧
    ((SiteSettingsManager.getEffectiveSettings DEFAULT_SETTINGS
        [("x.com", [("mainEnabled", .bool true)])] "x.com").jGet
        "hasSiteSpecificSettings" = .bool true) ∧
    ((SiteSettingsManager.getEffectiveSettings DEFAULT_SETTINGS [] "y.com").jGet
        "copyEnabled" = .bool true) ∧
    ((SiteSettingsManager.getEffectiveSettings DEFAULT_SETTINGS [] "y.com").jGet
        "hasSiteSpecificSettings" = .bool false) := by
  have h1 := C5_effective_settings_merge DEFAULT_SETTINGS
    [("x.com", [("mainEnabled", .bool true)])] "x.com" "mainEnabled" (by decide)
  have h2 := C5_effective_settings_merge DEFAULT_SETTINGS [] "y.com" "copyEnabled"
    (by decide)
  exact ⟨h1.2.trans rfl, h1.1.trans rfl, h2.2.trans rfl, h2.1.trans rfl⟩

/-- The timer state of one wrapper returned by `Utils.debounce` (popup.js
78-84, identical in content.js 87-93): the closure holds a single
`timeoutId`, so at most one execution of `fn` can be pending — `none` when
nothing is scheduled, `some (t, args)` when `fn` is due to run with `args`
after `t` more time units. -/
def DebounceState (α : Type) : Type := Option (Nat × α)

/-- One invocation of the debounced wrapper: `clearTimeout(timeoutId)`
discards whatever was pending, then `setTimeout(..., delay)` schedules `fn`
with the current arguments. -/
def debounceCall {α : Type} (delay : Nat) (_s : DebounceState α) (args : α) :
    DebounceState α :=
  some (delay, args)

/-- One time unit passing: a pending timer counts down and, on expiry, fires
`fn`; the list collects the argument tuples `fn` is executed with. -/
def debounceTick {α : Type} : DebounceState α → DebounceState α × List α
  | none => (none, [])
  | some (t, a) => if t ≤ 1 then (none, [a]) else (some (t - 1, a), [])

/-- `n` time units passing. -/
def debounceTicks {α : Type} (n : Nat) (s : DebounceState α) :
    DebounceState α × List α :=
  match n with
  | 0 => (s, [])
  | n + 1 =>
    let r1 := debounceTick s
    let r2 := debounceTicks n r1.1
    (r2.1, r1.2 ++ r2.2)

/-- Process a timed invocation sequence: for each `(gap, args)` pair, `gap`
time units pass and then the wrapper is invoked with `args`. -/
def debounceRunAux {α : Type} (delay : Nat) (s : DebounceState α) :
    List (Nat × α) → DebounceState α × List α
  | [] => (s, [])
  | (gap, a) :: rest =>
    let r1 := debounceTicks gap s
    let s2 := debounceCall delay r1.1 a
    let r2 := debounceRunAux delay s2 rest
    (r2.1, r1.2 ++ r2.2)

/-- A whole run of the debounced wrapper: a first invocation from the idle
state, the remaining timed invocations, then `flush` idle time units; the
result lists the argument tuples `fn` actually ran with, in order. -/
def debounceRun {α : Type} (delay : Nat) (first : α) (rest : List (Nat × α))
    (flush : Nat) : List α :=
  let s0 := debounceCall delay none first
  let r1 := debounceRunAux delay s0 rest
  let r2 := debounceTicks flush r1.1
  r1.2 ++ r2.2

/-- The arguments of the last invocation of the sequence. -/
def lastCallArgs {α : Type} (first : α) (rest : List (Nat × α)) : α :=
  rest.foldl (fun _ p => p.2) first

lemma debounceTicks_none {α : Type} (n : Nat) :
    debounceTicks n (none : DebounceState α) = (none, []) := by
  induction n with
  | zero => rfl
  | succ n ih => simp [debounceTicks, debounceTick, ih]

lemma debounceTicks_no_fire {α : Type} (g : Nat) :
    ∀ t, g < t → ∀ a : α, debounceTicks g (some (t, a)) = (some (t - g, a), []) := by
  induction g with
  | zero => intro t _ a; simp [debounceTicks]
  | succ g ih =>
    intro t hg a
    have ht : ¬ t ≤ 1 := by omega
    simp only [debounceTicks, debounceTick, if_neg ht]
    rw [ih (t - 1) (by omega) a]
    have he : t - 1 - g = t - (g + 1) := by omega
    simp [he]

lemma debounceTicks_fires {α : Type} (f : Nat) :
    ∀ t, 1 ≤ t → t ≤ f → ∀ a : α, debounceTicks f (some (t, a)) = (none, [a]) := by
  induction f with
  | zero => intro t h1 h2; omega
  | succ f ih =>
    intro t h1 h2 a
    by_cases ht : t ≤ 1
    · simp [debounceTicks, debounceTick, if_pos ht, debounceTicks_none]
    · simp only [debounceTicks, debounceTick, if_neg ht]
      rw [ih (t - 1) (by omega) (by omega) a]
      simp

lemma debounceRunAux_close {α : Type} (delay : Nat) (rest : List (Nat × α)) :
    (∀ p ∈ rest, p.1 < delay) → ∀ a : α,
      debounceRunAux delay (some (delay, a)) rest =
        (some (delay, lastCallArgs a rest), []) := by
  induction rest with
  | nil => intro _ a; rfl
  | cons p rest ih =>
    rcases p with ⟨g, b⟩
    intro hall a
    have hg : g < delay := hall (g, b) (List.mem_cons_self _ _)
    simp only [debounceRunAux, debounceTicks_no_fire g delay hg a, debounceCall]
    rw [ih (fun q hq => hall q (List.mem_cons_of_mem _ hq)) b]
    simp [lastCallArgs]

/-- C6: a debounced wrapper keeps at most one pending timer — each
invocation replaces the pending schedule with a fresh one carrying its own
arguments and the full delay — and over any invocation sequence whose gaps
are all shorter than the delay, followed by enough idle time, `fn` runs
exactly once, with the arguments of the last invocation. -/
theorem C6_debounce_single_execution {α : Type} (delay : Nat) (first : α)
    (rest : List (Nat × α)) (flush : Nat) :
    (∀ (s : DebounceState α) (a : α), debounceCall delay s a = some (delay, a)) ∧
    (1 ≤ delay → (∀ p ∈ rest, p.1 < delay) → delay ≤ flush →
      debounceRun delay first rest flush = [lastCallArgs first rest]) := by
  constructor
  · intro s a; rfl
  · intro h1 hall hflush
    unfold debounceRun
    simp only [debounceCall]
    rw [debounceRunAux_close delay rest hall first]
    simp only []
    rw [debounceTicks_fires flush delay h1 hflush (lastCallArgs first rest)]
    rfl

/-- Witness for C6: three invocations 1 and 2 units apart with delay 3 and a
5-unit flush execute `fn` once, with the third argument. -/
theorem C6_debounce_single_execution_witness :
    debounceRun 3 (1 : Nat) [(1, 2), (2, 3)] 5 = [3] ∧
    debounceCall 3 (some (2, (9 : Nat))) 7 = some (3, 7) :=
  ⟨(C6_debounce_single_execution 3 1 [(1, 2), (2, 3)] 5).2 (by decide)
      (by decide) (by decide),
   (C6_debounce_single_execution 3 1 [(1, 2), (2, 3)] 5).1 (some (2, 9)) 7⟩

/-- `Node.ELEMENT_NODE`. -/
def ELEMENT_NODE : Nat := 1

/-- A DOM node as the mutation observer sees it: its `nodeType` (1 for
elements), its `tagName` (absent on non-element nodes), its attributes and
its child nodes. -/
inductive MNode where
  | node (nodeType : Nat) (tagName : Option String)
      (attrs : List (String × String)) (children : List MNode)

mutual

def MNode.decEq : (a b : MNode) → Decidable (a = b)
  | .node t1 g1 a1 c1, .node t2 g2 a2 c2 =>
    if ht : t1 = t2 then
      if hg : g1 = g2 then
        if ha : a1 = a2 then
          match MNode.decEqList c1 c2 with
          | isTrue hc => isTrue (by rw [ht, hg, ha, hc])
          | isFalse hc => isFalse (fun h => hc (by cases h; rfl))
        else isFalse (fun h => ha (by cases h; rfl))
      else isFalse (fun h => hg (by cases h; rfl))
    else isFalse (fun h => ht (by cases h; rfl))

def MNode.decEqList : (a b : List MNode) → Decidable (a = b)
  | [], [] => isTrue rfl
  | [], _ :: _ => isFalse (by simp)
  | _ :: _, [] => isFalse (by simp)
  | x :: xs, y :: ys =>
    match MNode.decEq x y, MNode.decEqList xs ys with
    | isTrue h1, isTrue h2 => isTrue (by rw [h1, h2])
    | isFalse h1, _ => isFalse (fun h => h1 (by cases h; rfl))
    | isTrue _, isFalse h2 => isFalse (fun h => h2 (by cases h; rfl))

end

instance : DecidableEq MNode := MNode.decEq

namespace MNode

def nodeType : MNode → Nat
  | .node t _ _ _ => t

def tagName : MNode → Option String
  | .node _ g _ _ => g

def attrs : MNode → List (String × String)
  | .node _ _ a _ => a

def children : MNode → List MNode
  | .node _ _ _ c => c

/-- `getAttribute`: the attribute's string value, or `null` (`none`) when
the attribute is absent. -/
def getAttribute (n : MNode) (k : String) : Option String :=
  n.attrs.lookup k

end MNode

mutual

/-- All descendant nodes of a node, in document order. -/
def MNode.descendants : MNode → List MNode
  | .node _ _ _ cs => MNode.descendantsList cs

def MNode.descendantsList : List MNode → List MNode
  | [] => []
  | c :: cs => c :: (MNode.descendants c ++ MNode.descendantsList cs)

end

/-- `node.querySelectorAll` with the universal selector: every descendant
that is an element. -/
def MNode.qsaStar (n : MNode) : List MNode :=
  n.descendants.filter (fun c => c.nodeType = ELEMENT_NODE)

/-- The `type` of a `MutationRecord`. -/
inductive MutationType where
  | childList
  | attributes
  | characterData
  deriving DecidableEq, Repr

/-- A `MutationRecord` as the observer callback receives it. -/
structure Mutation where
  type : MutationType
  target : MNode
  addedNodes : List MNode
  deriving DecidableEq

namespace SmartDOMObserver

/-- `SmartDOMObserver.isValidMutation` (content.js 815-835): drop
`characterData` mutations, non-element targets, mutations on
`script`/`style`/`link` tags, and attribute mutations whose target's
`data-unlock-processed` attribute is truthy (present with a non-empty
value). -/
def isValidMutation (m : Mutation) : Bool :=
  if m.type = .characterData then false
  else if m.target.nodeType ≠ ELEMENT_NODE then false
  else
    let tagName := m.target.tagName.map jsToLower
    if tagName = some "script" ∨ tagName = some "style" ∨ tagName = some "link" then
      false
    else if m.type = .attributes ∧
        ((m.target.getAttribute "data-unlock-processed").getD "") ≠ "" then
      false
    else true

/-- `SmartDOMObserver.handleMutations` (content.js 797-812): filter the
callback batch through `isValidMutation` and push the survivors onto
`pendingMutations` (the early return on an empty filtered batch leaves the
queue equally unchanged; the timer reset is not modelled). -/
def handleMutations (pending : List Mutation) (mutations : List Mutation) :
    List Mutation :=
  let validMutations := mutations.filter isValidMutation
  if validMutations.length = 0 then pending
  else pending ++ validMutations

/-- `elementsToProcess.add`: JavaScript `Set.add` keeps insertion order and
ignores elements already present. -/
def insertElem (acc : List MNode) (x : MNode) : List MNode :=
  if x ∈ acc then acc else acc ++ [x]

def insertElems (acc : List MNode) (xs : List MNode) : List MNode :=
  xs.foldl insertElem acc

/-- The element-collection loop body of `SmartDOMObserver.batchProcess`
(content.js 843-860): a `childList` mutation contributes every added
element node and all its descendant elements, an `attributes` mutation
contributes its target. -/
def collectMutation (acc : List MNode) (m : Mutation) : List MNode :=
  match m.type with
  | .childList =>
    m.addedNodes.foldl
      (fun acc node =>
        if node.nodeType = ELEMENT_NODE then
          insertElems (insertElem acc node) node.qsaStar
        else acc)
      acc
  | .attributes => insertElem acc m.target
  | .characterData => acc

/-- `SmartDOMObserver.batchProcess` (content.js 837-865): an empty queue
returns at once; otherwise `splice(0)` empties `pendingMutations` and the
collected element set is handed to `processElements`.  Result: the queue
after the call and the elements processed, in insertion order. -/
def batchProcess (pending : List Mutation) : List Mutation × List MNode :=
  if pending.length = 0 then (pending, [])
  else
    let mutations := pending
    let elementsToProcess := mutations.foldl collectMutation []
    ([], elementsToProcess)

end SmartDOMObserver

/-- Description, in the (amended) claim's words, of the mutations
`isValidMutation` rejects: `characterData` mutations, non-element targets,
`script`/`style`/`link` targets, and attribute mutations whose target's
`data-unlock-processed` attribute is present with a non-empty value.
Meant only to be compared with `SmartDOMObserver.isValidMutation`. -/
def specInvalidMutation (m : Mutation) : Prop :=
  m.type = .characterData ∨
  m.target.nodeType ≠ ELEMENT_NODE ∨
  (∃ tag, m.target.tagName = some tag ∧
    (jsToLower tag = "script" ∨ jsToLower tag = "style" ∨ jsToLower tag = "link")) ∨
  (m.type = .attributes ∧
    ∃ v, m.target.getAttribute "data-unlock-processed" = some v ∧ v ≠ "")

/-- C7 (amended): `isValidMutation` returns `false` exactly for
`characterData` mutations, non-element targets, `script`/`style`/`link`
targets, and attribute mutations whose target's `data-unlock-processed`
attribute has a non-empty value — an empty-valued attribute does not count,
since the code tests the attribute's truthiness rather than its presence —
and `true` for every other mutation; `handleMutations` appends to the
pending queue exactly the mutations `isValidMutation` accepts. -/
theorem C7_isValidMutation_characterisation (m : Mutation)
    (pending mutations : List Mutation) :
    (SmartDOMObserver.isValidMutation m = false ↔ specInvalidMutation m) ∧
    SmartDOMObserver.handleMutations pending mutations =
      pending ++ mutations.filter SmartDOMObserver.isValidMutation := by
  constructor
  · unfold specInvalidMutation
    dsimp only [SmartDOMObserver.isValidMutation]
    split_ifs with h1 h2 h3 h4
    · exact iff_of_true rfl (Or.inl h1)
    · exact iff_of_true rfl (Or.inr (Or.inl h2))
    · refine iff_of_true rfl (Or.inr (Or.inr (Or.inl ?_)))
      rcases ht : m.target.tagName with _ | t
      · rw [ht] at h3; simp at h3
      · rw [ht] at h3
        simp only [Option.map_some', Option.some.injEq] at h3
        exact ⟨t, rfl, h3⟩
    · refine iff_of_true rfl (Or.inr (Or.inr (Or.inr ⟨h4.1, ?_⟩)))
      rcases ha : m.target.getAttribute "data-unlock-processed" with _ | v
      · rw [ha] at h4; simp at h4
      · rw [ha] at h4
        exact ⟨v, rfl, by simpa using h4.2⟩
    · refine iff_of_false (by simp) ?_
      rintro (h | h | ⟨t, ht, hs⟩ | ⟨hattr, v, hv, hne⟩)
      · exact h1 h
      · exact h2 h
      · exact h3 (by rw [ht]; simpa using hs)
      · exact h4 ⟨hattr, by rw [hv]; simpa using hne⟩
  · dsimp only [SmartDOMObserver.handleMutations]
    split_ifs with h
    · rw [List.length_eq_zero] at h
      rw [h, List.append_nil]
    · rfl

/-- An attribute mutation on a `div` element that carries the
`data-unlock-processed` attribute with the empty string as value. -/
def emptyMarkedMutation : Mutation :=
  { type := .attributes
    target := .node ELEMENT_NODE (some "DIV") [("data-unlock-processed", "")] []
    addedNodes := [] }

/-- C7 counterexample to the claim as stated: `emptyMarkedMutation` is an
attribute mutation whose target carries the `data-unlock-processed`
attribute, yet `isValidMutation` returns `true` for it, because
`getAttribute` yields the empty string, which is falsy. -/
theorem C7_counterexample_empty_attribute_value :
    (emptyMarkedMutation.type = .attributes ∧
      (emptyMarkedMutation.target.getAttribute "data-unlock-processed").isSome = true) ∧
    SmartDOMObserver.isValidMutation emptyMarkedMutation = true := by
  refine ⟨⟨rfl, rfl⟩, ?_⟩
  rfl

lemma mem_insertElem (acc : List MNode) (x y : MNode) :
    x ∈ SmartDOMObserver.insertElem acc y ↔ x ∈ acc ∨ x = y := by
  unfold SmartDOMObserver.insertElem
  split_ifs with h
  · constructor
    · exact Or.inl
    · rintro (hx | rfl)
      · exact hx
      · exact h
  · simp

lemma mem_insertElems (xs : List MNode) :
    ∀ acc x, x ∈ SmartDOMObserver.insertElems acc xs ↔ x ∈ acc ∨ x ∈ xs := by
  induction xs with
  | nil => intro acc x; simp [SmartDOMObserver.insertElems]
  | cons y ys ih =>
    intro acc x
    have : SmartDOMObserver.insertElems acc (y :: ys) =
        SmartDOMObserver.insertElems (SmartDOMObserver.insertElem acc y) ys := rfl
    rw [this, ih, mem_insertElem]
    simp [List.mem_cons]
    tauto

/-- The contribution of one added node of a `childList` mutation: the node
itself when it is an element, together with its descendant elements. -/
def childContrib (n x : MNode) : Prop :=
  n.nodeType = ELEMENT_NODE ∧ (x = n ∨ x ∈ n.qsaStar)

lemma mem_foldl_added (nodes : List MNode) :
    ∀ acc x,
      x ∈ nodes.foldl
          (fun acc node =>
            if node.nodeType = ELEMENT_NODE then
              SmartDOMObserver.insertElems (SmartDOMObserver.insertElem acc node)
                node.qsaStar
            else acc)
          acc ↔
        x ∈ acc ∨ ∃ n ∈ nodes, childContrib n x := by
  induction nodes with
  | nil => intro acc x; simp
  | cons n ns ih =>
    intro acc x
    rw [List.foldl_cons, ih]
    by_cases hn : n.nodeType = ELEMENT_NODE
    · rw [if_pos hn, mem_insertElems, mem_insertElem]
      simp only [List.mem_cons, childContrib]
      constructor
      · rintro (((hx | hx) | hx) | ⟨n', hn', hc⟩)
        · exact Or.inl hx
        · exact Or.inr ⟨n, Or.inl rfl, hn, Or.inl hx⟩
        · exact Or.inr ⟨n, Or.inl rfl, hn, Or.inr hx⟩
        · exact Or.inr ⟨n', Or.inr hn', hc⟩
      · rintro (hx | ⟨n', (rfl | hn'), he, hc⟩)
        · exact Or.inl (Or.inl (Or.inl hx))
        · rcases hc with rfl | hx
          · exact Or.inl (Or.inl (Or.inr rfl))
          · exact Or.inl (Or.inr hx)
        · exact Or.inr ⟨n', hn', he, hc⟩
    · rw [if_neg hn]
      simp only [List.mem_cons, childContrib]
      constructor
      · rintro (hx | ⟨n', hn', hc⟩)
        · exact Or.inl hx
        · exact Or.inr ⟨n', Or.inr hn', hc⟩
      · rintro (hx | ⟨n', (rfl | hn'), he, hc⟩)
        · exact Or.inl hx
        · exact absurd he hn
        · exact Or.inr ⟨n', hn', he, hc⟩

/-- The contribution of one queued mutation to the processed element set. -/
def mutContrib (m : Mutation) (x : MNode) : Prop :=
  (m.type = .childList ∧ ∃ n ∈ m.addedNodes, childContrib n x) ∨
  (m.type = .attributes ∧ x = m.target)

lemma mem_collectMutation (m : Mutation) (acc : List MNode) (x : MNode) :
    x ∈ SmartDOMObserver.collectMutation acc m ↔ x ∈ acc ∨ mutContrib m x := by
  obtain ⟨ty, tg, an⟩ := m
  cases ty with
  | childList =>
    show x ∈ an.foldl _ acc ↔ _
    rw [mem_foldl_added]
    simp [mutContrib]
  | attributes =>
    show x ∈ SmartDOMObserver.insertElem acc tg ↔ _
    rw [mem_insertElem]
    simp [mutContrib]
  | characterData =>
    show x ∈ acc ↔ _
    simp [mutContrib]

lemma mem_foldl_collect (pending : List Mutation) :
    ∀ acc x, x ∈ pending.foldl SmartDOMObserver.collectMutation acc ↔
      x ∈ acc ∨ ∃ m ∈ pending, mutContrib m x := by
  induction pending with
  | nil => intro acc x; simp
  | cons m ms ih =>
    intro acc x
    rw [List.foldl_cons, ih, mem_collectMutation]
    simp only [List.mem_cons]
    constructor
    · rintro ((hx | hc) | ⟨m', hm', hc⟩)
      · exact Or.inl hx
      · exact Or.inr ⟨m, Or.inl rfl, hc⟩
      · exact Or.inr ⟨m', Or.inr hm', hc⟩
    · rintro (hx | ⟨m', (rfl | hm'), hc⟩)
      · exact Or.inl (Or.inl hx)
      · exact Or.inl (Or.inr hc)
      · exact Or.inr ⟨m', hm', hc⟩

/-- Description, in the claim's words, of the set of elements a batch
processes: the element nodes added by the queued `childList` mutations
together with all their descendant elements, plus the targets of the
queued `attributes` mutations.  Meant only to be compared with
`SmartDOMObserver.batchProcess`. -/
def specProcessed (pending : List Mutation) (x : MNode) : Prop :=
  (∃ m ∈ pending, m.type = .childList ∧
    ∃ n ∈ m.addedNodes, n.nodeType = ELEMENT_NODE ∧
      (x = n ∨ (x ∈ n.descendants ∧ x.nodeType = ELEMENT_NODE))) ∨
  (∃ m ∈ pending, m.type = .attributes ∧ x = m.target)

/-- C8: `batchProcess` always leaves the pending queue empty — so each
enqueued mutation is consumed by exactly the one batch that drains it —
and the elements it hands to `processElements` are exactly the element
nodes added by the queued `childList` mutations together with all their
descendant elements, plus the targets of the queued `attributes`
mutations. -/
theorem C8_batchProcess_drains_queue (pending : List Mutation) (x : MNode) :
    (SmartDOMObserver.batchProcess pending).1 = [] ∧
    (x ∈ (SmartDOMObserver.batchProcess pending).2 ↔ specProcessed pending x) := by
  have hq : ∀ n : MNode, x ∈ n.qsaStar ↔ x ∈ n.descendants ∧ x.nodeType = ELEMENT_NODE := by
    intro n
    simp [MNode.qsaStar, List.mem_filter]
  dsimp only [SmartDOMObserver.batchProcess]
  split_ifs with h
  · rw [List.length_eq_zero] at h
    subst h
    refine ⟨rfl, ?_⟩
    simp [specProcessed]
  · refine ⟨rfl, ?_⟩
    rw [mem_foldl_collect]
    simp only [List.not_mem_nil, false_or]
    unfold specProcessed mutContrib childContrib
    constructor
    · rintro ⟨m, hm, (⟨hty, n, hn, he, hc⟩ | ⟨hty, hx⟩)⟩
      · exact Or.inl ⟨m, hm, hty, n, hn, he, by rwa [← hq n]⟩
      · exact Or.inr ⟨m, hm, hty, hx⟩
    · rintro (⟨m, hm, hty, n, hn, he, hc⟩ | ⟨m, hm, hty, hx⟩)
      · exact ⟨m, hm, Or.inl ⟨hty, n, hn, he, by rwa [hq n]⟩⟩
      · exact ⟨m, hm, Or.inr ⟨hty, hx⟩⟩
